import Mathlib

/-!
Verification of the `dot_parser` crate: a shallow embedding of its
tokenizer (`src/tokenizer.rs`) and grammar parsers
(`src/parser/mod.rs`, `src/parser/parser_head.rs`,
`src/parser/parser_compass.rs`, `src/parser/parser_port.rs`,
`src/parser/parser_attribute.rs`, `src/parser/parser_a_list.rs`,
`src/parser/parser_attr_list.rs`, `src/parser/grammer.rs`),
followed by theorems settling the specification claims.
-/

set_option maxHeartbeats 1000000

/-! ## Tokenizer data model (`src/tokenizer.rs`) -/

/-- `enum Keyword` from `tokenizer.rs`. -/
inductive Keyword where
  | node
  | edge
  | graph
  | digraph
  | subGraph
  | strict
deriving DecidableEq, Repr

/-- `enum Delimiter` from `tokenizer.rs`. -/
inductive Delimiter where
  | colon
  | comma
  | semicolon
  | openCurlyBrace
  | closedCurlyBrace
  | openSquareBrace
  | closedSquareBrace
  | space
  | equal
  | undirectedEdge
  | directedEdge
  | doubleQuote
deriving DecidableEq, Repr

/-- `enum Token` from `tokenizer.rs`. -/
inductive Token where
  | identifier (s : String)
  | keyword (k : Keyword)
  | delimiter (d : Delimiter)
deriving DecidableEq, Repr

/-- `struct TokenizeError` from `tokenizer.rs`. -/
structure TokenizeError where
  line : Nat
  col : Nat
  token : String
  reason : Option String
deriving DecidableEq, Repr

/-! ## Identifier validation (`is_proper_identifier` and its three regexes) -/

/-- First-character class of the regex
`^[a-zA-Z\x80-\xFF_][a-zA-Z\x80-\xFF_0-9]*$` (`alphabetic_id`). -/
def isAlphaIdHead (c : Char) : Bool :=
  c.isAlpha || (0x80 ≤ c.toNat && c.toNat ≤ 0xFF) || c = '_'

/-- Continuation-character class of `alphabetic_id`. -/
def isAlphaIdTail (c : Char) : Bool :=
  isAlphaIdHead c || c.isDigit

/-- Match of the `alphabetic_id` regex over the characters of the word. -/
def matchesAlphabeticId : List Char → Bool
  | [] => false
  | c :: rest => isAlphaIdHead c && rest.all isAlphaIdTail

/-- Body of the `numeral_id` regex after the optional leading `-`:
`(?:\.[0-9]+|[0-9]+(?:\.[0-9]*)?)`. -/
def matchesNumeralBody (l : List Char) : Bool :=
  match l with
  | '.' :: rest => !rest.isEmpty && rest.all Char.isDigit
  | _ =>
    let ds := l.takeWhile Char.isDigit
    let rest := l.dropWhile Char.isDigit
    !ds.isEmpty &&
      (rest.isEmpty ||
        (rest.head? = some '.' && (rest.drop 1).all Char.isDigit))

/-- Match of the `numeral_id` regex `^-?(?:\.[0-9]+|[0-9]+(?:\.[0-9]*)?)$`. -/
def matchesNumeralId : List Char → Bool
  | '-' :: rest => matchesNumeralBody rest
  | l => matchesNumeralBody l

/-- Interior of the `quoted_string_id` regex: `([^"\\]|\\.)*`.
The item language is prefix-deterministic, so this linear scan decides the
regex: a backslash must start a two-character escape item and a bare quote
matches no item. -/
def matchesQuotedBody : List Char → Bool
  | [] => true
  | '\\' :: _ :: rest => matchesQuotedBody rest
  | c :: rest => c ≠ '"' && c ≠ '\\' && matchesQuotedBody rest

/-- Match of the `quoted_string_id` regex `^"([^"\\]|\\.)*"$`. -/
def matchesQuotedStringId (l : List Char) : Bool :=
  2 ≤ l.length && l.head? = some '"' && l.getLast? = some '"' &&
    matchesQuotedBody (l.drop 1).dropLast

/-- UTF-8 byte length of a word, mirroring Rust `str::len`. -/
def utf8Len (l : List Char) : Nat :=
  (l.map Char.utf8Size).sum

/-- `is_proper_identifier` from `tokenizer.rs`. Note the Rust code branches
on the BYTE length of the word, so the single-character branch only ever
sees one-byte (ASCII) characters. -/
def is_proper_identifier (l : List Char) (line col : Nat) :
    Except TokenizeError Unit :=
  if utf8Len l = 1 then
    match l with
    | [c] =>
      if c.isAlpha || (0x80 ≤ c.toNat && c.toNat ≤ 0xFF) || c.isDigit then
        .ok ()
      else
        .error ⟨line, col, String.mk [c], some "Invalid single character"⟩
    | _ =>
      -- unreachable: a string of one UTF-8 byte has exactly one character
      .error ⟨line, col, String.mk l, some "Invalid single character"⟩
  else if l = ['"', '"'] then
    .error ⟨line, col, String.mk l, some "Empty quotes"⟩
  else if matchesAlphabeticId l || matchesNumeralId l ||
      matchesQuotedStringId l then
    .ok ()
  else
    .error ⟨line, col, String.mk l, some "Invalid identifier"⟩

/-- ASCII lowercasing of the word, mirroring `str::to_lowercase` as used by
`chars_to_token`; the six keywords compared against are all ASCII. -/
def toLowerList (l : List Char) : List Char :=
  l.map Char.toLower

/-- `chars_to_token` from `tokenizer.rs`: empty buffer yields no token,
keywords are matched case-insensitively, anything else is validated and
becomes an `Identifier` with one surrounding quote pair stripped. -/
def chars_to_token (chars : List Char) (line col : Nat) :
    Except TokenizeError (Option Token) :=
  if chars.isEmpty then
    .ok none
  else
    let lowered := toLowerList chars
    if lowered = "graph".data then .ok (some (.keyword .graph))
    else if lowered = "node".data then .ok (some (.keyword .node))
    else if lowered = "edge".data then .ok (some (.keyword .edge))
    else if lowered = "digraph".data then .ok (some (.keyword .digraph))
    else if lowered = "subgraph".data then .ok (some (.keyword .subGraph))
    else if lowered = "strict".data then .ok (some (.keyword .strict))
    else
      match is_proper_identifier chars line col with
      | .error e => .error e
      | .ok _ =>
        let word :=
          if chars.head? = some '"' && chars.getLast? = some '"' then
            (chars.dropLast).drop 1
          else chars
        .ok (some (.identifier (String.mk word)))

/-! ## The tokenizer scanning loop (`tokenize` in `tokenizer.rs`) -/

/-- The mutable state of the `tokenize` loop. The field names follow the
Rust local variables (including the `espace_next_char` spelling). -/
structure ScanState where
  parse_line : Nat
  col : Nat
  token_buffer : List Char
  tokens : List Token
  handling_double_quote : Bool
  espace_next_char : Bool
  possible_edge : Bool
deriving DecidableEq, Repr

/-- The initial scanner state. -/
def ScanState.init : ScanState :=
  ⟨0, 0, [], [], false, false, false⟩

/-- Classification of the single-character delimiters handled by the
`match current_char` block of the loop (excluding `'\n'` and `'-'`, whose
arms also update scanner state and are handled in `tokenizeStep`). -/
def simpleDelim (c : Char) : Option Delimiter :=
  if c = ' ' then some .space
  else if c = ':' then some .colon
  else if c = ',' then some .comma
  else if c = ';' then some .semicolon
  else if c = '[' then some .openSquareBrace
  else if c = ']' then some .closedSquareBrace
  else if c = '{' then some .openCurlyBrace
  else if c = '}' then some .closedCurlyBrace
  else if c = '=' then some .equal
  else none

/-- Flush the pending buffer through `chars_to_token` and then emit a
delimiter token unless it is `Space` (the `Some(delimiter)` arm of the
final `match delim` in the loop). -/
def flushAndEmit (st : ScanState) (d : Delimiter) :
    Except TokenizeError ScanState :=
  match chars_to_token st.token_buffer st.parse_line st.col with
  | .error e => .error e
  | .ok prev =>
    let tokens :=
      match prev with
      | some t => st.tokens ++ [t]
      | none => st.tokens
    let tokens :=
      if d ≠ .space then tokens ++ [.delimiter d] else tokens
    .ok { st with token_buffer := [], tokens := tokens }

/-- One iteration of the `for current_char in code.chars()` loop of
`tokenize`, in the source's exact order: column bump, pending-edge
resolution, backslash check, escape-pending check, quoted-string handling,
delimiter dispatch (with the `'\n'` and `'-'` arms updating state), and
finally buffering. -/
def tokenizeStep (st : ScanState) (c : Char) : Except TokenizeError ScanState :=
  let st := { st with col := st.col + 1 }
  if st.possible_edge then
    -- remove last item, it is an optimistic Delimiter::UndirectedEdge
    let tokens := st.tokens.dropLast
    if c = '-' then
      .ok { st with tokens := tokens ++ [.delimiter .undirectedEdge],
                    possible_edge := false }
    else if c = '>' then
      .ok { st with tokens := tokens ++ [.delimiter .directedEdge],
                    possible_edge := false }
    else
      .error ⟨st.parse_line, st.col, String.mk [c],
              some "Invalid edge, expected - or >"⟩
  else if c = '\\' then
    .ok { st with espace_next_char := true,
                  token_buffer := st.token_buffer ++ [c] }
  else if st.espace_next_char then
    .ok { st with espace_next_char := false,
                  token_buffer := st.token_buffer ++ [c] }
  else if st.handling_double_quote && c ≠ '"' then
    .ok { st with token_buffer := st.token_buffer ++ [c] }
  else if c = '"' && st.handling_double_quote then
    let buf := st.token_buffer ++ [c]
    match chars_to_token buf st.parse_line st.col with
    | .error e => .error e
    | .ok current_identifier =>
      let tokens :=
        match current_identifier with
        | some t => st.tokens ++ [t]
        | none => st.tokens
      .ok { st with handling_double_quote := false,
                    tokens := tokens, token_buffer := [] }
  else if c = '"' && !st.handling_double_quote then
    match chars_to_token st.token_buffer st.parse_line st.col with
    | .error e => .error e
    | .ok prev_tkn =>
      let tokens :=
        match prev_tkn with
        | some t => st.tokens ++ [t]
        | none => st.tokens
      .ok { st with handling_double_quote := true,
                    tokens := tokens, token_buffer := [c] }
  else if c = '\n' then
    flushAndEmit { st with parse_line := st.parse_line + 1, col := 0 } .space
  else if c = '-' then
    flushAndEmit { st with possible_edge := true } .undirectedEdge
  else
    match simpleDelim c with
    | some d => flushAndEmit st d
    | none => .ok { st with token_buffer := st.token_buffer ++ [c] }

/-- Run the scanning loop over a list of characters. -/
def scanList (st : ScanState) : List Char → Except TokenizeError ScanState
  | [] => .ok st
  | c :: cs =>
    match tokenizeStep st c with
    | .error e => .error e
    | .ok st2 => scanList st2 cs

/-- `tokenize` from `tokenizer.rs`: scan every character and return the
accumulated tokens. The loop has no end-of-input epilogue: whatever is
left in `token_buffer` (and any pending quote/edge state) is discarded. -/
def tokenize (code : String) : Except TokenizeError (List Token) :=
  match scanList ScanState.init code.data with
  | .error e => .error e
  | .ok st => .ok st.tokens

instance {ε α : Type} [DecidableEq ε] [DecidableEq α] :
    DecidableEq (Except ε α) := fun x y =>
  match x, y with
  | .ok a, .ok b =>
    if h : a = b then .isTrue (by rw [h]) else .isFalse (by simp [h])
  | .error a, .error b =>
    if h : a = b then .isTrue (by rw [h]) else .isFalse (by simp [h])
  | .ok _, .error _ => .isFalse (by simp)
  | .error _, .ok _ => .isFalse (by simp)


/-! ## AST data model (`src/parser/grammer.rs`) -/

namespace Grammer

/-- `enum EdgeOp` from `grammer.rs`. -/
inductive EdgeOp where
  | directed
  | unDirected
deriving DecidableEq, Repr

/-- `enum AttrStmtType` from `grammer.rs`. -/
inductive AttrStmtType where
  | graph
  | node
  | edge
deriving DecidableEq, Repr

/-- `enum Compass` from `grammer.rs`. -/
inductive Compass where
  | n | ne | e | se | s | sw | w | nw | c | underscore
deriving DecidableEq, Repr

/-- `struct Port` from `grammer.rs`. -/
structure Port where
  id : Option String
  compass : Option Compass
deriving DecidableEq, Repr

/-- `struct NodeId` from `grammer.rs`. -/
structure NodeId where
  id : String
  port : Option Port
deriving DecidableEq, Repr

/-- `struct Attribute` from `grammer.rs`. -/
structure Attribute where
  lhs : String
  rhs : String
deriving DecidableEq, Repr

/-- `struct AttributeStmt` from `grammer.rs`. -/
structure AttributeStmt where
  lhs : String
  rhs : String
deriving DecidableEq, Repr

/-- `struct AttrStmt` from `grammer.rs`. -/
structure AttrStmt where
  attr_stmt_type : AttrStmtType
  items : List Attribute
deriving DecidableEq, Repr

/-- `struct NodeStmt` from `grammer.rs`. -/
structure NodeStmt where
  id : String
  attributes : Option (List Attribute)
deriving DecidableEq, Repr

mutual

/-- `enum Statement` from `grammer.rs`. -/
inductive Statement where
  | nodeStmt (v : NodeStmt)
  | edgeStmt (v : EdgeStmt)
  | attrStmt (v : AttrStmt)
  | attributeStmt (v : AttributeStmt)
  | subGraph (v : SubGraph)

/-- `struct SubGraph` from `grammer.rs`. -/
inductive SubGraph where
  | mk (id : Option String) (statements : List Statement)

/-- `struct EdgeStmt` from `grammer.rs`. -/
inductive EdgeStmt where
  | mk (edge_lhs : EdgeStmtSide) (edge_rhs : EdgeRhs)
      (attributes : Option (List Attribute))

/-- `enum EdgeStmtSide` from `grammer.rs`. -/
inductive EdgeStmtSide where
  | nodeId (v : NodeId)
  | subGraph (v : SubGraph)

/-- `struct EdgeRhs` from `grammer.rs` (`edge_optional` is the boxed
continuation of an edge chain). -/
inductive EdgeRhs where
  | mk (edge_op : EdgeOp) (edge_to : EdgeStmtSide)
      (edge_optional : Option EdgeRhs)

end

/-- `enum GraphType` from `grammer.rs`. -/
inductive GraphType where
  | graph
  | digraph
deriving DecidableEq, Repr

/-- `struct DotGraph` from `grammer.rs`. -/
structure DotGraph where
  graph_type : Option GraphType
  strict_mode : Bool
  id : Option String
  statements : Option (List Statement)

/-- `struct ParserError` from `grammer.rs`. -/
structure ParserError where
  token : Option Token
  reason : Option String
deriving DecidableEq, Repr

end Grammer

/-! ## Graph head parsing (`src/parser/parser_head.rs`, `src/parser/mod.rs`) -/

/-- Outcome of running `parse_head` (and `parse`). Rust's
`anyhow::Result` gives `ok`/`err`; `panicked` records a Rust panic, which
`parse_head` can reach through `Iterator::next().unwrap()` /
`Iterator::last().unwrap()` on an exhausted token iterator, and `parse`
through `.unwrap()` on an `Err`. -/
inductive HeadOutcome where
  | ok (dg : Grammer.DotGraph)
  | err (e : Grammer.ParserError)
  | panicked

/-- Final step of `parse_head`: `tokens.last().unwrap()` over whatever the
iterator has left, then the closing-brace check. An exhausted iterator
makes `last()` return `None` and the `unwrap()` panic. -/
def parse_head.checkLast (gt : Grammer.GraphType) (strict : Bool)
    (id : Option String) (rest : List Token) : HeadOutcome :=
  match rest.getLast? with
  | none => .panicked
  | some last =>
    if last = Token.delimiter .closedCurlyBrace then
      .ok ⟨some gt, strict, id, some []⟩
    else
      .err ⟨some last, some "Expected \x7d at the end"⟩

/-- Middle of `parse_head`, after the optional `strict`: the
graph/digraph keyword, the optional name, the `{`, then the closing
check. Each `tokens.next().unwrap()` on an exhausted iterator panics. -/
def parse_head.afterStrict (strict : Bool) (tkn : Token)
    (rest : List Token) : HeadOutcome :=
  match tkn with
  | Token.keyword .graph => parse_head.afterType .graph strict rest
  | Token.keyword .digraph => parse_head.afterType .digraph strict rest
  | _ =>
    .err ⟨some tkn,
          some "Grpah should start with Keywords: strict/graph/digraph"⟩
where
  /-- After the graph-type keyword: optional name and `{`. -/
  parse_head.afterType (gt : Grammer.GraphType) (strict : Bool)
      (rest : List Token) : HeadOutcome :=
    match rest with
    | [] => .panicked
    | tkn2 :: rest2 =>
      match tkn2 with
      | Token.identifier id =>
        match rest2 with
        | [] => .panicked
        | tkn3 :: rest3 =>
          if tkn3 = Token.delimiter .openCurlyBrace then
            parse_head.checkLast gt strict (some id) rest3
          else
            .err ⟨some tkn3, some "Expected \x7b after graph name"⟩
      | Token.delimiter .openCurlyBrace =>
        parse_head.checkLast gt strict none rest2
      | _ =>
        .err ⟨some tkn2,
              some "After graph/digraph, we expect graph name or open brace"⟩

/-- `parse_head` from `parser_head.rs`: length precheck, optional
`strict`, graph-type keyword, optional name, `{`, and a final check that
the last remaining token is `}`. -/
def parse_head (tokens_vec : List Token) : HeadOutcome :=
  if tokens_vec.length < 3 then
    .err ⟨none, some "Need atleast 3 tokens"⟩
  else
    match tokens_vec with
    | [] => .panicked
    | t0 :: r0 =>
      if t0 = Token.keyword .strict then
        match r0 with
        | [] => .panicked
        | t1 :: r1 => parse_head.afterStrict true t1 r1
      else
        parse_head.afterStrict false t0 r0

/-- `parse` from `parser/mod.rs`: `parse_head(tokens_vec).unwrap()` (an
`Err` panics), then a statement-token slice is computed but the statement
parser call is commented out, so the head's empty `statements` is
returned unchanged. -/
def parse (tokens_vec : List Token) : HeadOutcome :=
  match parse_head tokens_vec with
  | .err _ => .panicked
  | .panicked => .panicked
  | .ok dg =>
    let start_idx : Nat :=
      match dg.strict_mode, dg.id with
      | true, some _ => 4
      | false, some _ => 3
      | true, none => 3
      | false, none => 2
    let _stmt_tokens := (tokens_vec.drop start_idx).take
      (tokens_vec.length - start_idx)
    .ok dg


/-! ## Combinator layer (`src/parser/parser.rs` and leaf parsers) -/

/-- `enum Compass` from `parser_compass.rs`. -/
inductive Compass where
  | n | ne | e | se | s | sw | w | nw | c | underscore
deriving DecidableEq, Repr

/-- `struct Port` from `parser_port.rs`. -/
structure Port where
  id : Option String
  compass : Option Compass
deriving DecidableEq, Repr

/-- `enum ParseOutput` from `parser/parser.rs`. -/
inductive ParseOutput where
  | compass (v : Compass)
  | port (v : Port)
deriving DecidableEq, Repr

/-- `enum ParseBufferItem` from `parser/parser.rs`. -/
inductive ParseBufferItem where
  | token (t : Token)
  | parseOutput (o : ParseOutput)
deriving DecidableEq, Repr

/-- `struct ParseResult<T>` from `parser/parser.rs`. -/
structure ParseResult (T : Type) where
  result : T
  remaining : List ParseBufferItem
deriving DecidableEq, Repr

/-- `Compass::parse` (`impl Parser<Compass> for Compass` in
`parser_compass.rs`): one `Identifier` token whose text is a lowercase
compass word. The `self` receiver is unused in the source. -/
def Compass.parse (input : List ParseBufferItem) :
    Option (ParseResult Compass) :=
  match input.head? with
  | none => none
  | some (ParseBufferItem.parseOutput _) => none
  | some (ParseBufferItem.token first) =>
    match first with
    | Token.identifier val =>
      let result : Option Compass :=
        if val = "n" then some .n
        else if val = "ne" then some .ne
        else if val = "e" then some .e
        else if val = "se" then some .se
        else if val = "s" then some .s
        else if val = "sw" then some .sw
        else if val = "w" then some .w
        else if val = "nw" then some .nw
        else if val = "c" then some .c
        else if val = "_" then some .underscore
        else none
      result.map (fun compass => ⟨compass, input.drop 1⟩)
    | _ => none

/-- `Port::parse` (`impl Parser<Port> for Port` in `parser_port.rs`):
after a leading `:`, a compass reading of the next item always wins over
the bare-id reading; an id may be followed by `: compass`. The source
calls `Compass::W.parse` on a singleton slice (the receiver is unused). -/
def Port.parse (input : List ParseBufferItem) : Option (ParseResult Port) :=
  match input.head?, input[1]? with
  | some first, some second =>
    if first ≠ ParseBufferItem.token (Token.delimiter .colon) then none
    else
      let second_as_compass := Compass.parse [second]
      let second_as_id : Option String :=
        match second with
        | ParseBufferItem.token (Token.identifier val) => some val
        | _ => none
      if second_as_compass.isNone && second_as_id.isNone then none
      else if h : second_as_compass.isSome then
        some ⟨⟨none, some (second_as_compass.get h).result⟩, input.drop 2⟩
      else
        match second_as_id with
        | some id =>
          match input[2]?, input[3]? with
          | some (ParseBufferItem.token (Token.delimiter .colon)),
            some (ParseBufferItem.token (Token.identifier fourthVal)) =>
            let fourth_as_compass :=
              Compass.parse [ParseBufferItem.token (Token.identifier fourthVal)]
            match fourth_as_compass with
            | some fc => some ⟨⟨some id, some fc.result⟩, input.drop 4⟩
            | none => none
          | _, _ => some ⟨⟨some id, none⟩, input.drop 2⟩
        | none => none
  | _, _ => none

/-- `struct Attribute` from `parser_attribute.rs`. -/
structure PAttribute where
  lhs : String
  rhs : String
deriving DecidableEq, Repr

/-- `Attribute::parse` from `parser_attribute.rs`: `ID '=' ID`. -/
def PAttribute.parse (input : List ParseBufferItem) :
    Option (ParseResult PAttribute) :=
  match input.head?, input[1]?, input[2]? with
  | some (ParseBufferItem.token (Token.identifier lhs)),
    some (ParseBufferItem.token (Token.delimiter .equal)),
    some (ParseBufferItem.token (Token.identifier rhs)) =>
    some ⟨⟨lhs, rhs⟩, input.drop 3⟩
  | _, _, _ => none

namespace Dot

/-- `struct AList` from `parser_a_list.rs`. -/
structure AList where
  items : List PAttribute
deriving DecidableEq, Repr

/-- `AList::parse` from `parser_a_list.rs`: an `Attribute` over the first
three items, then `input.get(3)` decides `has_more` (only `;` or `,`
continue the list); without a separator the remaining items
`input[3..]` are returned unconsumed. -/
def AList.parse : List ParseBufferItem → Option (ParseResult AList)
  | i0 :: i1 :: i2 :: rest1 =>
    match PAttribute.parse [i0, i1, i2] with
    | none => none
    | some results =>
      let attributes := [results.result]
      match rest1 with
      | ParseBufferItem.token (Token.delimiter .semicolon) :: rest =>
        (match AList.parse rest with
         | none => some ⟨⟨attributes⟩, rest⟩
         | some next =>
           some ⟨⟨attributes ++ next.result.items⟩, next.remaining⟩)
      | ParseBufferItem.token (Token.delimiter .comma) :: rest =>
        (match AList.parse rest with
         | none => some ⟨⟨attributes⟩, rest⟩
         | some next =>
           some ⟨⟨attributes ++ next.result.items⟩, next.remaining⟩)
      | _ => some ⟨⟨attributes⟩, rest1⟩
  | _ => none

end Dot

namespace Dot

/-- `struct AttrList` from `parser_attr_list.rs`. -/
structure AttrList where
  items : List PAttribute
deriving DecidableEq, Repr

/-- `AList::parse` consumes at least the three tokens of its leading
attribute: its `remaining` is shorter than the input by at least three.
This justifies the recursion of `AttrList::parse`. -/
theorem AList.parse_remaining_length :
    ∀ (xs : List ParseBufferItem) (r : ParseResult AList),
      AList.parse xs = some r → r.remaining.length + 3 ≤ xs.length := by
  intro xs
  induction xs using AList.parse.induct with
  | case1 i0 i1 i2 rest1 hattr =>
    intro r h
    simp [AList.parse, hattr] at h
  | case2 i0 i1 i2 results hattr rest hrest ih =>
    intro r h
    simp [AList.parse, hattr, hrest] at h
    subst h
    simp
  | case3 i0 i1 i2 results hattr rest next hrest ih =>
    intro r h
    simp [AList.parse, hattr, hrest] at h
    subst h
    have := ih next hrest
    simp only [List.length_cons]
    omega
  | case4 i0 i1 i2 results hattr rest hrest ih =>
    intro r h
    simp [AList.parse, hattr, hrest] at h
    subst h
    simp
  | case5 i0 i1 i2 results hattr rest next hrest ih =>
    intro r h
    simp [AList.parse, hattr, hrest] at h
    subst h
    have := ih next hrest
    simp only [List.length_cons]
    omega
  | case6 i0 i1 i2 rest1 results hattr hnsemi hncomma =>
    intro r h
    simp only [AList.parse, hattr, Option.some.injEq] at h
    subst h
    simp
  | case7 t hne =>
    intro r h
    rcases t with _ | ⟨a, _ | ⟨b, _ | ⟨c, t'⟩⟩⟩
    · simp [AList.parse] at h
    · simp [AList.parse] at h
    · simp [AList.parse] at h
    · exact absurd rfl (fun hh => hne _ _ _ _ hh)

/-- `AttrList::parse` from `parser_attr_list.rs`: `'[' a_list ']'`
followed by an optional further `AttrList` whose items are appended
(multiple bracket groups flatten). The source requires at least five
items and a present (non-empty) `a_list`. -/
def AttrList.parse (input : List ParseBufferItem) :
    Option (ParseResult AttrList) :=
  if input.length < 5 then none
  else
    match input.head? with
    | some first =>
      if first ≠ ParseBufferItem.token (Token.delimiter .openSquareBrace) then
        none
      else
        match ha : AList.parse (input.drop 1) with
        | none => none
        | some a_list =>
          let items := a_list.result.items
          match hr : a_list.remaining with
          | [] => none
          | r0 :: rtail =>
            if r0 ≠ ParseBufferItem.token (Token.delimiter .closedSquareBrace)
            then none
            else
              match AttrList.parse rtail with
              | none => some ⟨⟨items⟩, rtail⟩
              | some next => some ⟨⟨items ++ next.result.items⟩, next.remaining⟩
    | none => none
termination_by input.length
decreasing_by
  have hlen := AList.parse_remaining_length (input.drop 1) a_list ha
  rw [hr] at hlen
  simp only [List.length_drop, List.length_cons] at hlen
  omega

end Dot


/-! ## Supporting lemmas for the tokenizer claims -/

/-- Characters that the scanning loop neither treats as a delimiter,
whitespace, quote, backslash, nor edge start: they fall through to the
final buffering arm. -/
def isPlainChar (c : Char) : Bool :=
  !(c = '\\' || c = '"' || c = '\n' || c = ' ' || c = ':' || c = ',' ||
    c = ';' || c = '[' || c = ']' || c = '{' || c = '}' || c = '=' || c = '-')

/-- A plain character scanned outside of quote/escape/edge state is
buffered and changes nothing else. -/
theorem tokenizeStep_plain {st : ScanState} {c : Char}
    (hq : st.handling_double_quote = false)
    (he : st.espace_next_char = false)
    (hp : st.possible_edge = false)
    (hc : isPlainChar c = true) :
    tokenizeStep st c =
      .ok { st with col := st.col + 1,
                    token_buffer := st.token_buffer ++ [c] } := by
  simp only [isPlainChar, Bool.not_eq_true', Bool.or_eq_false_iff,
    decide_eq_false_iff_not] at hc
  obtain ⟨⟨⟨⟨⟨⟨⟨⟨⟨⟨⟨⟨h1, h2⟩, h3⟩, h4⟩, h5⟩, h6⟩, h7⟩, h8⟩, h9⟩, h10⟩,
    h11⟩, h12⟩, h13⟩ := hc
  simp [tokenizeStep, simpleDelim, hq, he, hp,
    h1, h2, h3, h4, h5, h6, h7, h8, h9, h10, h11, h12, h13]

/-- Scanning a non-empty all-plain suffix only grows the pending buffer. -/
theorem scanList_plain (w : List Char) :
    ∀ (st : ScanState), st.handling_double_quote = false →
      st.espace_next_char = false → st.possible_edge = false →
      (∀ c ∈ w, isPlainChar c = true) →
      scanList st w =
        .ok { st with col := st.col + w.length,
                      token_buffer := st.token_buffer ++ w } := by
  induction w with
  | nil =>
    intro st _ _ _ _
    simp [scanList]
  | cons c cs ih =>
    intro st hq he hp hplain
    have hc : isPlainChar c = true := hplain c (by simp)
    have hstep : scanList st (c :: cs) =
        scanList { st with col := st.col + 1,
                           token_buffer := st.token_buffer ++ [c] } cs := by
      rw [scanList, tokenizeStep_plain hq he hp hc]
    rw [hstep]
    rw [ih { st with col := st.col + 1, token_buffer := st.token_buffer ++ [c] }
      hq he hp (fun d hd => hplain d (by simp [hd]))]
    cases st
    simp [List.append_assoc]
    all_goals omega

/-- Scanning a concatenation scans the first part and continues from its
resulting state. -/
theorem scanList_append (xs ys : List Char) :
    ∀ st, scanList st (xs ++ ys) =
      match scanList st xs with
      | .error e => .error e
      | .ok st2 => scanList st2 ys := by
  induction xs with
  | nil => intro st; simp [scanList]
  | cons c cs ih =>
    intro st
    rw [List.cons_append, scanList, scanList]
    rcases tokenizeStep st c with e | st2
    · rfl
    · exact ih st2

/-! ## Claim theorems -/

/-- Claim C1 (code_bug evaluation): for the input
`graph \x7b a -- b; b -- c; \x7d` tokenize succeeds with the expected
eleven tokens, but `parse` returns the graph with `statements = Some([])`
— not the two edge statements the claim requires — because the statement
parser call in `parser/mod.rs` is commented out. -/
theorem parse_returns_empty_statements_for_two_edge_graph :
    tokenize "graph \x7b a -- b; b -- c; \x7d" =
      .ok [.keyword .graph, .delimiter .openCurlyBrace, .identifier "a",
           .delimiter .undirectedEdge, .identifier "b", .delimiter .semicolon,
           .identifier "b", .delimiter .undirectedEdge, .identifier "c",
           .delimiter .semicolon, .delimiter .closedCurlyBrace] ∧
    parse [.keyword .graph, .delimiter .openCurlyBrace, .identifier "a",
           .delimiter .undirectedEdge, .identifier "b", .delimiter .semicolon,
           .identifier "b", .delimiter .undirectedEdge, .identifier "c",
           .delimiter .semicolon, .delimiter .closedCurlyBrace] =
      .ok ⟨some .graph, false, none, some []⟩ :=
  ⟨by decide, rfl⟩

/-- Claim C2 (code_bug evaluation): on the well-formed heads
`strict graph \x7b` and `graph G \x7b` with no further tokens (so the
remainder does not end in `\x7d`), `parse_head` panics on an exhausted
iterator instead of returning a structural error. -/
theorem parse_head_panics_without_closing_brace :
    parse_head [.keyword .strict, .keyword .graph,
                .delimiter .openCurlyBrace] = .panicked ∧
    parse_head [.keyword .graph, .identifier "G",
                .delimiter .openCurlyBrace] = .panicked :=
  ⟨rfl, rfl⟩

/-- Claim C3 (code_bug evaluation): on the spec's unterminated-quote
example the tokenizer returns `Ok` with the tokens scanned before the
quote opened (the open quoted buffer is silently dropped at end of
input), not a fatal tokenize error. -/
theorem tokenize_accepts_unterminated_quote :
    tokenize "graph \x7b A [label=\"oops] \x7d" =
      .ok [.keyword .graph, .delimiter .openCurlyBrace, .identifier "A",
           .delimiter .openSquareBrace, .identifier "label",
           .delimiter .equal] := by
  decide

/-- Claim C4 (code_bug evaluation): on `ID = ID ID = ID` with no
separator, `AList::parse` succeeds with only the first attribute and
leaves the second `ID = ID` unconsumed — `has_more` is set only by a
`;` or `,` at position 3, so the list stops. -/
theorem alist_parse_stops_without_separator (a x b y : String) :
    Dot.AList.parse
      [.token (.identifier a), .token (.delimiter .equal),
       .token (.identifier x), .token (.identifier b),
       .token (.delimiter .equal), .token (.identifier y)] =
      some ⟨⟨[⟨a, x⟩]⟩,
            [.token (.identifier b), .token (.delimiter .equal),
             .token (.identifier y)]⟩ := by
  simp [Dot.AList.parse, PAttribute.parse]

/-- Claim C5 (code_bug evaluation): a lone `-` followed by a non-edge
character is a fatal tokenize error as claimed (second conjunct), but a
lone `-` at end of input is NOT: the optimistically pushed
`UndirectedEdge` token survives in a successful result (first
conjunct). -/
theorem tokenize_accepts_trailing_dash :
    tokenize "a-" = .ok [.identifier "a", .delimiter .undirectedEdge] ∧
    tokenize "-;" = .error ⟨0, 2, ";", some "Invalid edge, expected - or >"⟩ := by
  constructor <;> decide

/-- Claim C6 (code_bug evaluation): in a quoted string, after `\\` the
escape flag is still armed (the bare-backslash check precedes the
escape-pending check), so the following `"` is buffered instead of
closing the string; the whole input is then dropped at end of input and
tokenize returns `Ok([])`. The second conjunct shows the singly escaped
quote `\"` behaving normally for contrast. -/
theorem tokenize_double_backslash_rearms_escape :
    tokenize "\"a\\\\\";" = .ok [] ∧
    tokenize "\"a\\\"b\";" =
      .ok [.identifier "a\\\"b", .delimiter .semicolon] := by
  constructor <;> decide

/-- The identifier spelling of each compass point accepted by
`Compass::parse`. -/
def compassText : Compass → String
  | .n => "n"
  | .ne => "ne"
  | .e => "e"
  | .se => "se"
  | .s => "s"
  | .sw => "sw"
  | .w => "w"
  | .nw => "nw"
  | .c => "c"
  | .underscore => "_"

/-- Claim C7: on `:` followed by an identifier that is a compass word,
`Port::parse` consumes both items and yields `id = None`,
`compass = Some c` — the compass reading wins over the bare-id
reading. -/
theorem port_parse_compass_wins (cp : Compass) (rest : List ParseBufferItem) :
    Port.parse (.token (.delimiter .colon) ::
        .token (.identifier (compassText cp)) :: rest) =
      some ⟨⟨none, some cp⟩, rest⟩ := by
  cases cp <;> simp [Port.parse, Compass.parse, compassText]

/-- Claim C8: every successful `Port::parse` yields a port with at least
one of `id`, `compass` present. -/
theorem port_parse_never_empty (input : List ParseBufferItem)
    (r : ParseResult Port) (h : Port.parse input = some r) :
    r.result.id.isSome = true ∨ r.result.compass.isSome = true := by
  rcases input with _ | ⟨first, _ | ⟨second, rest⟩⟩
  · simp [Port.parse] at h
  · simp [Port.parse] at h
  · simp only [Port.parse, List.head?_cons, List.getElem?_cons_zero,
      List.getElem?_cons_succ] at h
    repeat' split at h
    all_goals
      first
        | (simp only [Option.some.injEq] at h; subst h; simp)
        | simp at h

/-- Witness for C8 at the concrete input `[:, n]`. -/
theorem port_parse_never_empty_witness :
    ((⟨⟨none, some .n⟩, []⟩ : ParseResult Port).result.id.isSome = true ∨
      (⟨⟨none, some .n⟩, []⟩ : ParseResult Port).result.compass.isSome = true) :=
  port_parse_never_empty
    [.token (.delimiter .colon), .token (.identifier "n")]
    ⟨⟨none, some .n⟩, []⟩ rfl

/-- Claim C10: when a scan ends cleanly (no pending quote, escape, or
edge state) and the input continues with a non-empty run of plain
characters that ends the input, the run is buffered as a pending lexeme
and silently dropped: `tokenize` returns exactly the tokens of the clean
prefix, the same as without the run. -/
theorem tokenize_drops_pending_lexeme (code : String) (st : ScanState)
    (w : List Char)
    (hscan : scanList ScanState.init code.data = .ok st)
    (hq : st.handling_double_quote = false)
    (he : st.espace_next_char = false)
    (hp : st.possible_edge = false)
    (hw : w ≠ []) (hplain : ∀ c ∈ w, isPlainChar c = true) :
    tokenize (code ++ String.mk w) = .ok st.tokens ∧
      tokenize code = .ok st.tokens := by
  have _ := hw
  constructor
  · have hdata : (code ++ String.mk w).data = code.data ++ w := rfl
    unfold tokenize
    rw [hdata, scanList_append, hscan]
    show (match scanList st w with
          | Except.error e => Except.error e
          | Except.ok st2 => Except.ok st2.tokens) =
        (Except.ok st.tokens : Except TokenizeError (List Token))
    rw [scanList_plain w st hq he hp hplain]
  · unfold tokenize
    rw [hscan]

/-- Witness for C10: the empty clean prefix followed by the plain run
`abc` tokenizes to `Ok([])`. -/
theorem tokenize_drops_pending_lexeme_witness :
    tokenize ("" ++ String.mk ['a', 'b', 'c']) = .ok ScanState.init.tokens ∧
      tokenize "" = .ok ScanState.init.tokens :=
  tokenize_drops_pending_lexeme "" ScanState.init ['a', 'b', 'c'] rfl rfl rfl
    rfl (by decide) (by decide)

/-! ## Flattening of consecutive bracket groups (claim C9) -/

namespace Dot

/-- A list starting with `]` never begins an `a_list` (its first three
items cannot form an `ID = ID` attribute). -/
theorem AList.parse_closed_brace (l : List ParseBufferItem) :
    AList.parse (.token (.delimiter .closedSquareBrace) :: l) = none := by
  rcases l with _ | ⟨a, _ | ⟨b, l2⟩⟩
  · rfl
  · rfl
  · simp [AList.parse, PAttribute.parse]

/-- The recursion equation of `AttrList::parse`, restated with plain
matches so it can be used for rewriting. -/
theorem AttrList.parse_eq (input : List ParseBufferItem) :
    AttrList.parse input =
      (if input.length < 5 then none
       else
         match input.head? with
         | some first =>
           if first ≠ ParseBufferItem.token (Token.delimiter .openSquareBrace)
           then none
           else
             match AList.parse (input.drop 1) with
             | none => none
             | some a_list =>
               match a_list.remaining with
               | [] => none
               | r0 :: rtail =>
                 if r0 ≠ ParseBufferItem.token (Token.delimiter .closedSquareBrace)
                 then none
                 else
                   match AttrList.parse rtail with
                   | none => some ⟨⟨a_list.result.items⟩, rtail⟩
                   | some next =>
                     some ⟨⟨a_list.result.items ++ next.result.items⟩,
                           next.remaining⟩
         | none => none) := by
  rw [AttrList.parse.eq_def]
  repeat' split
  all_goals simp_all

/-- Frame property of `AList::parse`: when a parse stops with a `]` at
the head of its remaining input, appending further items after the input
leaves the parsed attributes unchanged and lands in the same position.
The `]` head matters: the list cannot resume across it, because a `]`
neither is a separator nor starts an attribute. -/
theorem AList.parse_append_frame (ys : List ParseBufferItem) :
    ∀ (xs : List ParseBufferItem) (items : List PAttribute)
      (t : List ParseBufferItem),
      AList.parse xs =
        some ⟨⟨items⟩,
          ParseBufferItem.token (Token.delimiter .closedSquareBrace) :: t⟩ →
      AList.parse (xs ++ ys) =
        some ⟨⟨items⟩,
          ParseBufferItem.token (Token.delimiter .closedSquareBrace) ::
            (t ++ ys)⟩ := by
  intro xs
  induction xs using AList.parse.induct with
  | case1 i0 i1 i2 rest1 hattr =>
    intro items t h
    simp [AList.parse, hattr] at h
  | case2 i0 i1 i2 results hattr rest hrest ih =>
    intro items t h
    simp only [AList.parse, hattr, hrest, Option.some.injEq] at h
    simp only [ParseResult.mk.injEq, AList.mk.injEq] at h
    obtain ⟨h1, h2⟩ := h
    subst h1
    subst h2
    simp only [List.cons_append]
    simp [AList.parse, hattr, AList.parse_closed_brace]
  | case3 i0 i1 i2 results hattr rest next hrest ih =>
    intro items t h
    obtain ⟨⟨nitems⟩, nrem⟩ := next
    simp only [AList.parse, hattr, hrest, Option.some.injEq] at h
    simp only [ParseResult.mk.injEq, AList.mk.injEq] at h
    obtain ⟨h1, h2⟩ := h
    subst h2
    subst h1
    have ihr := ih nitems t hrest
    simp only [List.cons_append]
    simp [AList.parse, hattr, ihr]
  | case4 i0 i1 i2 results hattr rest hrest ih =>
    intro items t h
    simp only [AList.parse, hattr, hrest, Option.some.injEq] at h
    simp only [ParseResult.mk.injEq, AList.mk.injEq] at h
    obtain ⟨h1, h2⟩ := h
    subst h1
    subst h2
    simp only [List.cons_append]
    simp [AList.parse, hattr, AList.parse_closed_brace]
  | case5 i0 i1 i2 results hattr rest next hrest ih =>
    intro items t h
    obtain ⟨⟨nitems⟩, nrem⟩ := next
    simp only [AList.parse, hattr, hrest, Option.some.injEq] at h
    simp only [ParseResult.mk.injEq, AList.mk.injEq] at h
    obtain ⟨h1, h2⟩ := h
    subst h2
    subst h1
    have ihr := ih nitems t hrest
    simp only [List.cons_append]
    simp [AList.parse, hattr, ihr]
  | case6 i0 i1 i2 rest1 results hattr hnsemi hncomma =>
    intro items t h
    simp only [AList.parse, hattr, Option.some.injEq] at h
    simp only [ParseResult.mk.injEq, AList.mk.injEq] at h
    obtain ⟨h1, h2⟩ := h
    subst h1
    subst h2
    simp only [List.cons_append]
    simp [AList.parse, hattr]
  | case7 t2 hne =>
    intro items t h
    rcases t2 with _ | ⟨a, _ | ⟨b, _ | ⟨d, t3⟩⟩⟩
    · simp [AList.parse] at h
    · simp [AList.parse] at h
    · simp [AList.parse] at h
    · exact absurd rfl (fun hh => hne _ _ _ _ hh)

/-- Forward evaluation step of `AttrList::parse` on a well-formed first
bracket group. -/
theorem AttrList.parse_step (tl : List ParseBufferItem)
    (aItems : List PAttribute) (rtail : List ParseBufferItem)
    (h5 : ¬ (ParseBufferItem.token (Token.delimiter .openSquareBrace) ::
      tl).length < 5)
    (hAL : AList.parse tl =
      some ⟨⟨aItems⟩,
        ParseBufferItem.token (Token.delimiter .closedSquareBrace) :: rtail⟩) :
    AttrList.parse
      (ParseBufferItem.token (Token.delimiter .openSquareBrace) :: tl) =
      (match AttrList.parse rtail with
       | none => some ⟨⟨aItems⟩, rtail⟩
       | some next =>
         some ⟨⟨aItems ++ next.result.items⟩, next.remaining⟩) := by
  rw [AttrList.parse_eq, if_neg h5]
  simp [hAL]

/-- Inversion of a successful `AttrList::parse`: the input begins with
`[`, its `a_list` stops at a `]`, and the result either ends there or
continues with a further `AttrList` whose items are appended. -/
theorem AttrList.parse_some_inv (input : List ParseBufferItem)
    (r : ParseResult AttrList) (h : AttrList.parse input = some r) :
    ∃ tl aItems rtail,
      input = ParseBufferItem.token (Token.delimiter .openSquareBrace) :: tl ∧
      ¬ input.length < 5 ∧
      AList.parse tl =
        some ⟨⟨aItems⟩,
          ParseBufferItem.token (Token.delimiter .closedSquareBrace) ::
            rtail⟩ ∧
      ((AttrList.parse rtail = none ∧ r = ⟨⟨aItems⟩, rtail⟩) ∨
       (∃ next, AttrList.parse rtail = some next ∧
          r = ⟨⟨aItems ++ next.result.items⟩, next.remaining⟩)) := by
  rw [AttrList.parse_eq] at h
  rcases input with _ | ⟨first, tl⟩
  · simp at h
  · by_cases h5 : (first :: tl).length < 5
    · rw [if_pos h5] at h
      simp at h
    · rw [if_neg h5] at h
      simp only [List.head?_cons, List.drop_one, List.tail_cons] at h
      by_cases hf : first =
          ParseBufferItem.token (Token.delimiter .openSquareBrace)
      case neg =>
        rw [if_pos hf] at h
        simp at h
      subst hf
      rw [if_neg (by simp)] at h
      rcases hAL : AList.parse tl with _ | ⟨⟨aItems⟩, aRem⟩
      · simp only [hAL] at h
        exact Option.noConfusion h
      · simp only [hAL] at h
        rcases aRem with _ | ⟨r0, rtail⟩
        · simp at h
        · by_cases hr0 : r0 =
              ParseBufferItem.token (Token.delimiter .closedSquareBrace)
          case neg => simp [hr0] at h
          subst hr0
          refine ⟨tl, aItems, rtail, rfl, h5, hAL, ?_⟩
          rcases hrec : AttrList.parse rtail with _ | next
          · simp only [hrec, ne_eq, not_true_eq_false, if_false,
              Option.some.injEq] at h
            exact Or.inl ⟨rfl, h.symm⟩
          · simp only [hrec, ne_eq, not_true_eq_false, if_false,
              Option.some.injEq] at h
            exact Or.inr ⟨next, rfl, h.symm⟩

/-- Claim C9: parsing the concatenation of two fully parsed bracket
groups succeeds and returns the concatenation, in source order, of the
attributes of the two groups — multiple bracket groups flatten into a
single ordered attribute list. -/
theorem AttrList.parse_compose :
    ∀ (g1 g2 : List ParseBufferItem) (r1 r2 : List PAttribute),
      AttrList.parse g1 = some ⟨⟨r1⟩, []⟩ →
      AttrList.parse g2 = some ⟨⟨r2⟩, []⟩ →
      AttrList.parse (g1 ++ g2) = some ⟨⟨r1 ++ r2⟩, []⟩ := by
  suffices H : ∀ (n : Nat) (g1 g2 : List ParseBufferItem)
      (r1 r2 : List PAttribute), g1.length ≤ n →
      AttrList.parse g1 = some ⟨⟨r1⟩, []⟩ →
      AttrList.parse g2 = some ⟨⟨r2⟩, []⟩ →
      AttrList.parse (g1 ++ g2) = some ⟨⟨r1 ++ r2⟩, []⟩ by
    intro g1 g2 r1 r2 h1 h2
    exact H g1.length g1 g2 r1 r2 le_rfl h1 h2
  intro n
  induction n with
  | zero =>
    intro g1 g2 r1 r2 hlen h1 h2
    rw [AttrList.parse_eq] at h1
    have h5 : g1.length < 5 := by omega
    simp [h5] at h1
  | succ n ih =>
    intro g1 g2 r1 r2 hlen h1 h2
    obtain ⟨tl, aItems, rtail, hg1, h5, hAL, hcase⟩ :=
      AttrList.parse_some_inv g1 _ h1
    subst hg1
    have h5c : ¬ (ParseBufferItem.token (Token.delimiter .openSquareBrace) ::
        (tl ++ g2)).length < 5 := by
      simp only [List.length_cons, List.length_append]
      simp only [List.length_cons] at h5
      omega
    have hframe := AList.parse_append_frame g2 tl aItems rtail hAL
    have hstep := AttrList.parse_step (tl ++ g2) aItems (rtail ++ g2)
      h5c hframe
    rcases hcase with ⟨hrec, hr⟩ | ⟨next, hrec, hr⟩
    · simp only [ParseResult.mk.injEq] at hr
      obtain ⟨hr1, hr2⟩ := hr
      have hr1b : r1 = aItems := congrArg AttrList.items hr1
      subst hr1b
      subst hr2
      simp only [List.nil_append] at hstep
      show AttrList.parse
        (ParseBufferItem.token (Token.delimiter .openSquareBrace) ::
          (tl ++ g2)) = _
      rw [hstep, h2]
    · obtain ⟨⟨nitems⟩, nrem⟩ := next
      simp only [ParseResult.mk.injEq] at hr
      obtain ⟨hr1, hr2⟩ := hr
      have hr1b : r1 = aItems ++ nitems := congrArg AttrList.items hr1
      subst hr1b
      subst hr2
      have hlt : rtail.length ≤ n := by
        have hrem := AList.parse_remaining_length tl
          ⟨⟨aItems⟩, ParseBufferItem.token
            (Token.delimiter .closedSquareBrace) :: rtail⟩ hAL
        simp only [List.length_cons] at hrem
        simp only [List.length_cons] at hlen
        omega
      have ihr := ih rtail g2 nitems r2 hlt hrec h2
      show AttrList.parse
        (ParseBufferItem.token (Token.delimiter .openSquareBrace) ::
          (tl ++ g2)) = _
      rw [hstep, ihr]
      simp [List.append_assoc]

end Dot

/-- Witness for C9 at the concrete input `[a=1][b=2]`. -/
theorem attrlist_parse_compose_witness :
    Dot.AttrList.parse
        ([.token (.delimiter .openSquareBrace), .token (.identifier "a"),
          .token (.delimiter .equal), .token (.identifier "1"),
          .token (.delimiter .closedSquareBrace)] ++
         [.token (.delimiter .openSquareBrace), .token (.identifier "b"),
          .token (.delimiter .equal), .token (.identifier "2"),
          .token (.delimiter .closedSquareBrace)]) =
      some ⟨⟨[⟨"a", "1"⟩] ++ [⟨"b", "2"⟩]⟩, []⟩ :=
  Dot.AttrList.parse_compose _ _ [⟨"a", "1"⟩] [⟨"b", "2"⟩]
    (by simp [Dot.AttrList.parse, Dot.AList.parse, PAttribute.parse])
    (by simp [Dot.AttrList.parse, Dot.AList.parse, PAttribute.parse])
